import Mathlib

/-!
Shallow embedding of the core of `redux-first-router`:
the URL-to-Action translator (`src/utils/urlToAction.js`) and the browser
history synchronization machine (`BrowserHistory`, `src/unnamed/part_000`).

JavaScript runtime values appearing as route parameters are modelled by
`JsVal` (either `undefined`, a string, or a number); JS objects used as
parameter / query / state dictionaries are modelled as ordered association
lists (`Params`), matching JS object key-insertion order for `for-in`
iteration and spread merges.  Fallible JS code (code that can throw a
`TypeError`) is modelled with `Except JsErr`.
-/

namespace RFR

/-- A JavaScript value as it occurs in route parameters: `undefined`, a
string, or a (non-negative integral) number produced by `parseFloat` on an
all-digit string. -/
inductive JsVal where
  | undef
  | str (s : String)
  | num (n : Nat)
deriving DecidableEq

/-- A JS object used as a dictionary, in key-insertion order. -/
abbrev Params := List (String × JsVal)

/-- A thrown JS `TypeError`. -/
inductive JsErr where
  | typeError (msg : String)
deriving DecidableEq

/-- Property lookup on an object modelled as an association list. -/
def alookup {α : Type} : List (String × α) → String → Option α
  | [], _ => none
  | (k, v) :: rest, key => if k = key then some v else alookup rest key

/-- JS spread merge of two objects (second wins on common keys):
keys of `a` first (values overridden by `b` where present), then the keys
of `b` that are not in `a`, in order. -/
def jsSpread (a b : Params) : Params :=
  a.map (fun kv => (kv.1, (alookup b kv.1).getD kv.2)) ++
    b.filter (fun kv => (alookup a kv.1).isNone)

/-- JS string coercion, as performed by `RegExp.test` on a non-string. -/
def jsToString : JsVal → String
  | .undef => "undefined"
  | .str s => s
  | .num n => toString n

/-- JS truthiness of the values a path parameter can hold. -/
def jsTruthy : JsVal → Bool
  | .undef => false
  | .str s => s ≠ ""
  | .num n => n ≠ 0

/-- Source: `const decodedVal = val && decodeURIComponent(val)` in
`urlToAction.js` (line 46): a falsy value short-circuits (so `undefined`
is not decoded); a truthy value is URL-decoded.  The decoder itself is the
JS builtin `decodeURIComponent`, abstracted as the parameter `dec`. -/
def decodeParamVal (dec : String → String) : JsVal → JsVal
  | .undef => .undef
  | .str s => if s = "" then .str "" else .str (dec s)
  | .num n => if n = 0 then .num 0 else .str (dec (toString n))

/-- Source: `const isNumber = (val) => /^\d+$/.test(val)`
(`urlToAction.js` line 118); the regex coerces its argument to a string,
so `undefined` tests against the string "undefined" and fails. -/
def isNumber (v : JsVal) : Bool :=
  let s := jsToString v
  s ≠ "" && s.toList.all Char.isDigit

/-- JS `parseFloat` restricted to the all-digit strings admitted by the
`isNumber` guard under which the source applies it: the denoted decimal
number (always a number, never a string). -/
def parseFloatDigits (v : JsVal) : JsVal :=
  JsVal.num ((jsToString v).toList.foldl (fun acc c => acc * 10 + (c.toNat - 48)) 0)

/-- JS `\w` word character: letters, digits, underscore. -/
def wordChar (c : Char) : Bool := c.isAlphanum || c = '_'

/-- Uppercase each word character that starts a word (JS `\b\w`), tracking
whether the previous character was a word character. -/
def capitalizeChars : Bool → List Char → List Char
  | _, [] => []
  | prevWord, c :: cs =>
    let cw := wordChar c
    let c' := if cw && !prevWord then c.toUpper else c
    c' :: capitalizeChars cw cs

/-- Source: the capitalization expression of `urlToAction.js` line 75 —
replace all hyphens (a global regex replace of hyphen by space), then
uppercase the first character of each word (a global regex replace of
word-initial word characters by their uppercase). -/
def jsCapitalizeStr (s : String) : String :=
  String.mk (capitalizeChars false (s.toList.map (fun c => if c = '-' then ' ' else c)))

/-- Data fields of a route (`path`, `convertNumbers`, `capitalizedWords`).
A JS route object also carries its hook functions; the hooks below receive
this data view of the route (a hook cannot be applied to itself, so the
function fields of the JS route object are split out into `Route`). -/
structure RouteData where
  path : Option String := none
  convertNumbers : Option Bool := none
  capitalizedWords : Option Bool := none
deriving DecidableEq

/-- Data fields of the global options object; hooks receive this view. -/
structure OptsData where
  convertNumbers : Bool := false
  capitalizedWords : Bool := false
deriving DecidableEq

/-- A `fromPath` hook: receives `(decodedVal, key, val, route, options)`. -/
abbrev PathHook := JsVal → String → JsVal → RouteData → OptsData → JsVal

/-- A `fromSearch` hook: receives `(value, key, route, options)`. -/
abbrev SearchHook := JsVal → String → RouteData → OptsData → JsVal

/-- A `fromHash` hook: receives `(hash, route, options)`. -/
abbrev HashHook := String → RouteData → OptsData → String

/-- A `defaultParams` / `defaultQuery` / `defaultState` option: either a
plain object (merged under the transformed values) or a function
`(values, route, options)` that fully replaces the merge. -/
inductive DefaultObj where
  | obj (d : Params)
  | fn (f : Params → RouteData → OptsData → Params)

/-- A `defaultHash` option: a plain value used when the hash is falsy, or
a function `(hash, route, options)` that fully replaces. -/
inductive DefaultHash where
  | val (s : String)
  | fn (f : String → RouteData → OptsData → String)

/-- A route of the route table. -/
structure Route where
  data : RouteData := {}
  fromPath : Option PathHook := none
  fromSearch : Option SearchHook := none
  fromHash : Option HashHook := none
  defaultParams : Option DefaultObj := none
  defaultQuery : Option DefaultObj := none
  defaultHash : Option DefaultHash := none
  defaultState : Option DefaultObj := none
  parseQuery : Option (String → Params) := none

/-- The global options object. -/
structure Opts where
  data : OptsData := {}
  fromPath : Option PathHook := none
  fromSearch : Option SearchHook := none
  fromHash : Option HashHook := none
  defaultParams : Option DefaultObj := none
  defaultQuery : Option DefaultObj := none
  defaultHash : Option DefaultHash := none
  defaultState : Option DefaultObj := none
  parseQuery : Option (String → Params) := none

/-- Source: `route.convertNumbers || (opts.convertNumbers && route.convertNumbers !== false)`
(`urlToAction.js` lines 64-65). -/
def effConvertNumbers (r : RouteData) (o : OptsData) : Bool :=
  r.convertNumbers = some true || (o.convertNumbers && r.convertNumbers ≠ some false)

/-- Source: `route.capitalizedWords || (opts.capitalizedWords && route.capitalizedWords !== false)`
(`urlToAction.js` lines 71-72). -/
def effCapitalized (r : RouteData) (o : OptsData) : Bool :=
  r.capitalizedWords = some true || (o.capitalizedWords && r.capitalizedWords ≠ some false)

/-- Source: `defaultFromPath` (`urlToAction.js` lines 57-81).  The
capitalization branch calls `.replace` on the decoded value, which throws
a `TypeError` when that value is not a string (in particular when an
optional parameter was left undefined). -/
def defaultFromPath (decodedVal : JsVal) (key : String) (val : JsVal)
    (r : RouteData) (o : Opts) : Except JsErr JsVal :=
  if effConvertNumbers r o.data && isNumber decodedVal then
    Except.ok (parseFloatDigits decodedVal)
  else if effCapitalized r o.data then
    match decodedVal with
    | .str s => Except.ok (.str (jsCapitalizeStr s))
    | _ => Except.error (.typeError "Cannot read property replace of a non-string")
  else
    match o.fromPath with
    | some f => Except.ok (f decodedVal key val r o.data)
    | none => Except.ok decodedVal

/-- Evaluation of `def(values, route, opts)` versus the spread merge
`\x7b...def, ...values\x7d`, shared by `fromPath`, `fromSearch` and
`fromState` (`urlToAction.js` lines 51-54, 93-96, 110-113). -/
def applyDefaultObj (dflt : Option DefaultObj) (vals : Params)
    (r : RouteData) (o : OptsData) : Params :=
  match dflt with
  | none => vals
  | some (.obj d) => jsSpread d vals
  | some (.fn f) => f vals r o

/-- Source: the `for (const key in params)` loop of `fromPath`
(`urlToAction.js` lines 44-49): decode each value (skipping decode for
falsy values), apply the route's `fromPath` hook or `defaultFromPath`,
and delete the key when the transformed value is `undefined`. -/
def fromPathLoop (dec : String → String) (route : Route) (o : Opts) :
    Params → Except JsErr Params
  | [] => Except.ok []
  | (k, val) :: rest =>
    let decodedVal := decodeParamVal dec val
    let res := match route.fromPath with
      | some f => Except.ok (f decodedVal k val route.data o.data)
      | none => defaultFromPath decodedVal k val route.data o
    match res with
    | Except.error e => Except.error e
    | Except.ok newVal =>
      match fromPathLoop dec route o rest with
      | Except.error e => Except.error e
      | Except.ok tail =>
        if newVal = JsVal.undef then Except.ok tail
        else Except.ok ((k, newVal) :: tail)

/-- Source: `fromPath` (`urlToAction.js` lines 41-55): run the per-key
loop, then apply `route.defaultParams || opts.defaultParams`. -/
def fromPath (dec : String → String) (route : Route) (o : Opts)
    (params : Params) : Except JsErr Params :=
  match fromPathLoop dec route o params with
  | Except.error e => Except.error e
  | Except.ok ps =>
    Except.ok (applyDefaultObj (route.defaultParams <|> o.defaultParams)
      ps route.data o.data)

/-- Source: the `for (const key in query)` loop of `fromSearch`
(`urlToAction.js` lines 87-90). -/
def fromSearchLoop (f : SearchHook) (r : RouteData) (o : OptsData) :
    Params → Params
  | [] => []
  | (k, v) :: rest =>
    let nv := f v k r o
    let tail := fromSearchLoop f r o rest
    if nv = JsVal.undef then tail else (k, nv) :: tail

/-- Source: `fromSearch` (`urlToAction.js` lines 83-97). -/
def fromSearch (route : Route) (o : Opts) (query : Params) : Params :=
  let q := match route.fromSearch <|> o.fromSearch with
    | some f => fromSearchLoop f route.data o.data query
    | none => query
  applyDefaultObj (route.defaultQuery <|> o.defaultQuery) q route.data o.data

/-- Source: `fromHash` (`urlToAction.js` lines 99-107): single-value
transform, then `defaultHash` (`hash || def` for a plain default). -/
def fromHash (route : Route) (o : Opts) (hash : String) : String :=
  let h := match route.fromHash <|> o.fromHash with
    | some f => f hash route.data o.data
    | none => hash
  match route.defaultHash <|> o.defaultHash with
  | none => h
  | some (.fn f) => f h route.data o.data
  | some (.val d) => if h = "" then d else h

/-- Source: `fromState` (`urlToAction.js` lines 109-114). -/
def fromState (state : Params) (route : Route) (o : Opts) : Params :=
  applyDefaultObj (route.defaultState <|> o.defaultState) state route.data o.data

/-- A parsed Location view of a URL. -/
structure Location where
  pathname : String
  search : String
  hash : String
deriving DecidableEq

/-- Split a character list at the first occurrence of `c`; the second
component is `none` when `c` does not occur. -/
def splitAtChar : List Char → Char → (List Char × Option (List Char))
  | [], _ => ([], none)
  | x :: xs, c =>
    if x = c then ([], some xs)
    else
      let (a, b) := splitAtChar xs c
      (x :: a, b)

/-- Modelled from the spec: `urlToLocation` (`src/history/utils`, not under
`src/`) derives the Location view `pathname`, `search`, `hash` of a URL
(spec section 3: "Location: derived view of a URL — pathname, search,
hash"): the fragment follows the first `#`, the search string follows the
first `?` before it. -/
def urlToLocation (path : String) : Location :=
  let (beforeHash, hash?) := splitAtChar path.toList '#'
  let (pathname, search?) := splitAtChar beforeHash '?'
  { pathname := String.mk pathname
    search := String.mk (search?.getD [])
    hash := String.mk (hash?.getD []) }

/-- Drop `pat` from the head of `s`: `some` of the remainder when `pat`
leads `s`, else `none`. -/
def dropLead : List Char → List Char → Option (List Char)
  | s, [] => some s
  | [], _ :: _ => none
  | c :: cs, p :: ps => if c = p then dropLead cs ps else none

/-- JS `String.prototype.replace` with a string pattern and empty
replacement: remove the first occurrence of `pat` (the whole string is
returned unchanged when `pat` does not occur; an empty `pat` matches at
position 0 and removes nothing). -/
def replaceFirstChars (pat : List Char) : List Char → List Char
  | [] =>
    (match dropLead [] pat with
     | some r => r
     | none => [])
  | c :: cs =>
    match dropLead (c :: cs) pat with
    | some rest => rest
    | none => c :: replaceFirstChars pat cs

/-- Source: `url.replace(basename, '')` (`urlToAction.js` line 16): JS
`replace` with a string pattern removes the FIRST occurrence of the
basename anywhere in the URL, not specifically a leading prefix. -/
def jsReplaceFirst (s pat : String) : String :=
  String.mk (replaceFirstChars pat.toList s.toList)

/-- Follows the spec's words, for refinement comparison with
`jsReplaceFirst`: "strip `basename` prefix from the URL" — remove the
basename only when it is a leading prefix of the URL. -/
def stripBasenameSpec (url basename : String) : String :=
  match dropLead url.toList basename.toList with
  | some rest => String.mk rest
  | none => url

/-- The raw (pre-transform) result of a successful pattern match:
still-encoded path parameters, raw query object, raw hash. -/
structure RawMatch where
  params : Params := []
  query : Params := []
  hash : String := ""

/-- The raw pattern matcher of `matchUrl` (spec section 4.1), abstracted:
given the parsed Location and the route's data (its `path` pattern), it
returns the raw match or `none`. -/
abbrev Matcher := Location → RouteData → Option RawMatch

/-- Modelled from the spec: `matchUrl` (`src/utils`, not under `src/`).
Spec section 4.1 gives the raw-match contract (the abstract `matcher`
parameter) and section 4.3 says that on a successful match the section 4.2
transformers (`fromPath`, `fromSearch`, `fromHash` — the `transformers`
object that `urlToAction.js` passes into `matchUrl`) are run to build the
matched params, query and hash. -/
def matchUrl (dec : String → String) (m : Matcher) (l : Location)
    (route : Route) (o : Opts) : Except JsErr (Option (Params × Params × String)) :=
  match m l route.data with
  | none => Except.ok none
  | some raw =>
    match fromPath dec route o raw.params with
    | Except.error e => Except.error e
    | Except.ok params =>
      Except.ok (some (params, fromSearch route o raw.query, fromHash route o raw.hash))

/-- The canonical action produced by the translator. -/
structure Action where
  type : String
  params : Params := []
  query : Params := []
  hash : String := ""
  state : Params := []
  basename : String := ""
deriving DecidableEq

/-- The unscoped NOT_FOUND action type. -/
def NOT_FOUND : String := "NOT_FOUND"

/-- Modelled from the spec: the `notFound` action creator (`src/actions`,
not under `src/`): its type is the given scoped type when provided, else
the unscoped NOT_FOUND type, and the inbound state is passed through
unmodified (spec section 4.3). -/
def notFound (state : Params) (type? : Option String) : Action :=
  { type := type?.getD NOT_FOUND, state := state }

/-- Source: `(routes.NOT_FOUND.parseQuery || opts.parseQuery)(search)`
(`urlToAction.js` lines 120-121): reading `parseQuery` off a missing
`NOT_FOUND` route throws, as does calling an absent hook. -/
def parseQueryFn (routes : List (String × Route)) (o : Opts) :
    Except JsErr (String → Params) :=
  match alookup routes NOT_FOUND with
  | none => Except.error (.typeError "Cannot read property parseQuery of undefined")
  | some nf =>
    match nf.parseQuery <|> o.parseQuery with
    | none => Except.error (.typeError "parseQuery is not a function")
    | some f => Except.ok f

/-- JS truthiness of a route's `path` field, as used by the filter
`routes[type].path` (`urlToAction.js` line 15). -/
def pathTruthy : Option String → Bool
  | some s => s ≠ ""
  | none => false

/-- An inbound location argument: a bare URL string, or an object with
`url`, `basename` (default `""`) and `state` (default empty). -/
inductive InLoc where
  | strUrl (url : String)
  | obj (url : String) (basename : String) (state : Params)

/-- Source: `typeof loc === 'string' ? \x7b url: loc \x7d : loc` and the
destructuring defaults of `urlToAction.js` line 14. -/
def destructureLoc : InLoc → String × String × Params
  | .strUrl u => (u, "", [])
  | .obj u b st => (u, b, st)

/-- Source: the `for` loop of `urlToAction.js` lines 19-29: try each
path-bearing route in table order; on the first successful match build the
matched action (running `fromState` on the inbound state) and stop. -/
def routeLoop (dec : String → String) (m : Matcher) (l : Location)
    (o : Opts) (basename : String) (state : Params) :
    List (String × Route) → Except JsErr (Option Action)
  | [] => Except.ok none
  | (type, route) :: rest =>
    match matchUrl dec m l route o with
    | Except.error e => Except.error e
    | Except.ok (some (params, query, hash)) =>
      Except.ok (some { type := type
                        params := params
                        query := query
                        hash := hash
                        basename := basename
                        state := fromState state route o })
    | Except.ok none => routeLoop dec m l o basename state rest

/-- Source: the default export of `src/utils/urlToAction.js` (lines 8-39):
destructure the inbound location, keep only the path-bearing routes in
declaration order, remove the basename from the URL via JS `replace`,
parse the Location, run the matching loop, and fall back to a NOT_FOUND
action when nothing matched. -/
def urlToAction (dec : String → String) (m : Matcher) (loc : InLoc)
    (routes : List (String × Route)) (o : Opts) (scene : String) :
    Except JsErr Action :=
  let (url, basename, state) := destructureLoc loc
  let types := routes.filter (fun tr => pathTruthy tr.2.data.path)
  let path := jsReplaceFirst url basename
  let l := urlToLocation path
  match routeLoop dec m l o basename state types with
  | Except.error e => Except.error e
  | Except.ok (some a) => Except.ok a
  | Except.ok none =>
    let sceneType := scene ++ "/NOT_FOUND"
    let type? := if (alookup routes sceneType).isSome then some sceneType else none
    let queryE : Except JsErr Params :=
      if l.search ≠ "" then
        match parseQueryFn routes o with
        | Except.error e => Except.error e
        | Except.ok f => Except.ok (f l.search)
      else Except.ok []
    match queryE with
    | Except.error e => Except.error e
    | Except.ok query =>
      let base := notFound state type?
      Except.ok { base with
        basename := basename
        params := []
        query := query
        hash := l.hash }

/-- Follows the spec's words, for refinement comparison with
`urlToAction`: identical except that the basename is stripped only as a
leading prefix of the URL (spec section 4.3: "strip `basename` prefix from
the URL"). -/
def urlToActionSpecStrip (dec : String → String) (m : Matcher) (loc : InLoc)
    (routes : List (String × Route)) (o : Opts) (scene : String) :
    Except JsErr Action :=
  let (url, basename, state) := destructureLoc loc
  let types := routes.filter (fun tr => pathTruthy tr.2.data.path)
  let path := stripBasenameSpec url basename
  let l := urlToLocation path
  match routeLoop dec m l o basename state types with
  | Except.error e => Except.error e
  | Except.ok (some a) => Except.ok a
  | Except.ok none =>
    let sceneType := scene ++ "/NOT_FOUND"
    let type? := if (alookup routes sceneType).isSome then some sceneType else none
    let queryE : Except JsErr Params :=
      if l.search ≠ "" then
        match parseQueryFn routes o with
        | Except.error e => Except.error e
        | Except.ok f => Except.ok (f l.search)
      else Except.ok []
    match queryE with
    | Except.error e => Except.error e
    | Except.ok query =>
      let base := notFound state type?
      Except.ok { base with
        basename := basename
        params := []
        query := query
        hash := l.hash }

/-!
Browser synchronization machine (`BrowserHistory`, `src/unnamed/part_000`).
The observable calls into the browser and into the engine's gate are
modelled as an `Effect` trace; the mutable instance fields touched by pop
handling (`_popForced`, `pendingPop`, `url`) are the state `BHState`.
-/

/-- An observable call issued by the pop-handling code: a native
`window.history.go(n)` (always via `_forceGo`), or an invocation of the
engine's `jump` gate with the computed delta, its kind, and the revert
callback (`BrowserHistory` line 110). -/
inductive Effect where
  | windowGo (n : Int)
  | jumpCall (n : Int) (kind : String)
deriving DecidableEq

/-- The instance fields of `BrowserHistory` read and written by pop
handling: the one-shot `_popForced` flag, the pending pop delta
`pendingPop`, and the engine's currently-recorded URL `this.url`. -/
structure BHState where
  popForced : Bool := false
  pendingPop : Option Int := none
  url : String := ""
deriving DecidableEq

/-- Source: `_forceGo` (`BrowserHistory` lines 128-131): set the one-shot
`_popForced` flag and issue a native `window.history.go(n)`. -/
def forceGo (st : BHState) (n : Int) : BHState × List Effect :=
  ({ st with popForced := true }, [Effect.windowGo n])

/-- Source: `const kind = n === -1 ? 'back' : 'next'` (line 99). -/
def kindOf (n : Int) : String := if n = -1 then "back" else "next"

/-- Source: `handlePop` (`BrowserHistory` lines 82-111).  `isNext`
abstracts `this._isNext(loc)` of the `History` base class (not under
`src/`): whether the reported location sits at the next index.  A forced
pop is suppressed and clears the flag; a first pop records its direction
and invokes the gate (`this.jump(n, ..., kind, ..., revertPop)`); a second
pop while one is pending force-navigates immediately without the gate:
with `p` pending, by `(p * -1) * -1 = p` when the reported URL equals the
engine's current URL ("switch directions"), else by `p * -1`. -/
def handlePop (isNext : String → Bool) (st : BHState) (locUrl : String) :
    BHState × List Effect :=
  if st.popForced then ({ st with popForced := false }, [])
  else
    match st.pendingPop with
    | none =>
      let n : Int := if isNext locUrl then 1 else -1
      ({ st with pendingPop := some n }, [Effect.jumpCall n (kindOf n)])
    | some p =>
      if locUrl = st.url then
        let n := p * -1
        forceGo st (n * -1)
      else
        let n := p
        forceGo st (n * -1)

/-- Source: the `revertPop` closure of `handlePop` (lines 101-105): the
captured `reverted` flag starts false; a call issues `_forceGo(n * -1)`
only when the flag is still false, and sets it. -/
def revertPopStep (n : Int) (reverted : Bool) : Bool × List Effect :=
  if !reverted then (true, [Effect.windowGo (n * -1)])
  else (true, [])

/-- The concatenated browser-stack effects of calling the `revertPop`
closure `k` times from a given flag state. -/
def revertPopCalls (n : Int) : Nat → Bool → List Effect
  | 0, _ => []
  | k + 1, reverted =>
    let (r, es) := revertPopStep n reverted
    es ++ revertPopCalls n k r

/-- One step of the asynchronous native-navigation chains of
`BrowserHistory`: wait for the browser URL to settle at a target
(`_awaitLocation`), a native `go` (`_forceGo`), or a native
`replaceState` at the current position. -/
inductive NavStep where
  | awaitLoc (url : String)
  | goNative (n : Int)
  | replaceNative (key : String) (url : String)
deriving DecidableEq

/-- The data of an action that `_jump` / `_replace` operate on: the entry
key and URL (the fields destructured at lines 134 and 141). -/
structure NavAction where
  key : String
  url : String
deriving DecidableEq

/-- Source: `_replace` (`BrowserHistory` lines 140-152): with a truthy
`n`, first `_forceGo(n)`, wait, then native `replaceState`; otherwise wait
for `awaitLoc || this.prevUrl`, then native `replaceState`. -/
def replaceTrace (prevUrl : String) (a : NavAction) (await? : Option String)
    (n : Option Int) : List NavStep :=
  match n with
  | some m =>
    if m ≠ 0 then
      [NavStep.goNative m, NavStep.awaitLoc (await?.getD prevUrl),
       NavStep.replaceNative a.key a.url]
    else
      [NavStep.awaitLoc (await?.getD prevUrl), NavStep.replaceNative a.key a.url]
  | none =>
    [NavStep.awaitLoc (await?.getD prevUrl), NavStep.replaceNative a.key a.url]

/-- Source: `_jump` (`BrowserHistory` lines 154-167): a falsy `n`
degrades to `_replace(action)`; a pop-originated jump does nothing
further; otherwise wait for `prevUrl`, `_forceGo(n)`, wait for the target
location, then `_replace(action, action)` (which waits for the target
again and replaces). -/
def jumpTrace (prevUrl : String) (a : NavAction) (n : Int) (isPop : Bool) :
    List NavStep :=
  if n = 0 then replaceTrace prevUrl a none none
  else if isPop then []
  else
    [NavStep.awaitLoc prevUrl, NavStep.goNative n, NavStep.awaitLoc a.url] ++
      replaceTrace prevUrl a (some a.url) none

/-!
The browser-settle retry queue (`tryChange` / `rapidChangeWorkaround`,
`BrowserHistory` lines 219-249).  The module-level mutable state (`tries`,
`queue`) together with the single outstanding `setTimeout` timer and the
result log form `SState`.  The browser's eventual settling is modelled by
giving each wait a `readyAt` attempt number from which its `ready()`
predicate reports true (settling is monotone in time).  The single JS
event loop delivers two kinds of events: a new `tryChange` request
arriving, and the outstanding retry timer firing.
-/

/-- Source: `const maxTries = 10` (line 220). -/
def maxTries : Nat := 10

/-- Source: the 9 ms backoff of `setTimeout(..., 9)` (line 233). -/
def retryDelayMs : Nat := 9

/-- One browser-settle wait: its identity and the attempt number from
which its `ready()` check starts reporting true (a value above `maxTries`
models a browser that never settles in time). -/
structure WTask where
  id : Nat
  readyAt : Nat
deriving DecidableEq

/-- The `ready()` check of a wait at a given value of the `tries`
counter. -/
def taskReady (t : WTask) (tries : Nat) : Bool := t.readyAt ≤ tries

/-- The module-level state of the retry queue: the `tries` counter, the
FIFO `queue`, the wait whose retry timer is outstanding (`active`), the
log of completed waits, the wait whose retry bound was exceeded in test
mode (`threw`), and the log of scheduled backoff delays. -/
structure SState where
  tries : Nat := 0
  queue : List WTask := []
  active : Option WTask := none
  completed : List Nat := []
  threw : Option Nat := none
  delays : List Nat := []
deriving DecidableEq

/-- The three outcomes of one attempt of `rapidChangeWorkaround` for the
wait `t`: rescheduled (timer outstanding), thrown (test mode, retry bound
exceeded), or completed (counter reset, timer cleared, queue untouched). -/
inductive PollStep where
  | wait (s : SState)
  | thrown (s : SState)
  | done (s : SState)

/-- Source: one attempt of `rapidChangeWorkaround` (lines 228-241):
increment `tries`; while not ready and under the bound, schedule a 9 ms
retry; otherwise, in test mode with `ready()` still false, throw (aborting
before `complete()` and before the queue is drained); else complete and
reset `tries` to 0. -/
def pollOnce (isTest : Bool) (s : SState) (t : WTask) : PollStep :=
  let tr := s.tries + 1
  if !taskReady t tr && tr < maxTries then
    PollStep.wait { s with
      tries := tr
      active := some t
      delays := s.delays ++ [retryDelayMs] }
  else if isTest && !taskReady t tr then
    PollStep.thrown { s with tries := tr, active := none, threw := some t.id }
  else
    PollStep.done { s with
      tries := 0
      completed := s.completed ++ [t.id]
      active := none }

/-- Source: `rapidChangeWorkaround` (lines 228-248): run one attempt; on
completion shift the queue and immediately start the next wait (lines
243-247).  `fuel` bounds the synchronous completion cascade through the
queue (a fuel of the current queue length always suffices, and with the
queue empty the fuel is irrelevant). -/
def beginPoll (isTest : Bool) : Nat → SState → WTask → SState
  | 0, s, t =>
    (match pollOnce isTest s t with
     | PollStep.wait s1 => s1
     | PollStep.thrown s1 => s1
     | PollStep.done s1 => s1)
  | f + 1, s, t =>
    match pollOnce isTest s t with
    | PollStep.wait s1 => s1
    | PollStep.thrown s1 => s1
    | PollStep.done s1 =>
      match s1.queue with
      | next :: rest => beginPoll isTest f { s1 with queue := rest } next
      | [] => s1

/-- An event delivered by the single JS event loop: a new `tryChange`
request, or the outstanding retry timer firing. -/
inductive SEvent where
  | arrive (t : WTask)
  | fire
deriving DecidableEq

/-- Source: `tryChange` (lines 223-226) for an arrival — start polling
when `tries === 0`, else push onto the queue — and the `setTimeout`
callback of line 233 for a timer firing, which re-enters
`rapidChangeWorkaround` for the active wait. -/
def stepEvent (isTest : Bool) (s : SState) : SEvent → SState
  | .arrive t =>
    if s.tries = 0 then beginPoll isTest s.queue.length s t
    else { s with queue := s.queue ++ [t] }
  | .fire =>
    match s.active with
    | some t => beginPoll isTest s.queue.length { s with active := none } t
    | none => s

/-- Run a sequence of event-loop events from a state. -/
def runEvents (isTest : Bool) : SState → List SEvent → SState
  | s, [] => s
  | s, e :: es => runEvents isTest (stepEvent isTest s e) es

/-- The initial module state (`tries = 0`, empty queue). -/
def initS : SState := {}

/-- The ids of the waits requested by a script, in arrival order. -/
def arrivalIds : List SEvent → List Nat
  | [] => []
  | .arrive t :: es => t.id :: arrivalIds es
  | .fire :: es => arrivalIds es

/-- The ids of all waits a state accounts for, in their service order:
completed waits first, then a thrown one, then the actively polling one,
then the queue. -/
def idsOf (s : SState) : List Nat :=
  s.completed ++ s.threw.toList ++ (s.active.map WTask.id).toList ++
    s.queue.map WTask.id

/-!
Helper lemmas.
-/

theorem revertPopCalls_true (n : Int) : ∀ k, revertPopCalls n k true = []
  | 0 => rfl
  | k + 1 => by
    simp [revertPopCalls, revertPopStep, revertPopCalls_true n k]

theorem bhstate_eta (st : BHState) (h : st.popForced = false) :
    { st with popForced := false } = st := by
  cases st; simp_all

/-!
Claim theorems.
-/

/-- C9: for every jump with relative delta `n`: if `n` is zero it degrades
to a plain replace of the current entry's native state; if the jump
originated from a native pop, no further native navigation is performed;
otherwise it waits for the previous URL to settle, force-navigates by `n`,
waits for the target URL to settle, and then replaces the native state at
that position, in that order. -/
theorem c9_jump_protocol (prevUrl : String) (a : NavAction) (n : Int)
    (isPop : Bool) :
    (n = 0 → jumpTrace prevUrl a n isPop =
      [NavStep.awaitLoc prevUrl, NavStep.replaceNative a.key a.url]) ∧
    (n ≠ 0 → isPop = true → jumpTrace prevUrl a n isPop = []) ∧
    (n ≠ 0 → isPop = false → jumpTrace prevUrl a n isPop =
      [NavStep.awaitLoc prevUrl, NavStep.goNative n, NavStep.awaitLoc a.url,
       NavStep.awaitLoc a.url, NavStep.replaceNative a.key a.url]) := by
  refine ⟨fun h => ?_, fun h hp => ?_, fun h hp => ?_⟩
  · simp [jumpTrace, replaceTrace, h]
  · simp [jumpTrace, replaceTrace, h, hp]
  · simp [jumpTrace, replaceTrace, h, hp]

/-- Witness for C9 at concrete inputs: a zero jump, a pop-originated jump,
and a programmatic jump by 2. -/
theorem c9_jump_protocol_witness :
    jumpTrace "/p" ⟨"k", "/t"⟩ 0 false =
      [NavStep.awaitLoc "/p", NavStep.replaceNative "k" "/t"] ∧
    jumpTrace "/p" ⟨"k", "/t"⟩ 2 true = [] ∧
    jumpTrace "/p" ⟨"k", "/t"⟩ 2 false =
      [NavStep.awaitLoc "/p", NavStep.goNative 2, NavStep.awaitLoc "/t",
       NavStep.awaitLoc "/t", NavStep.replaceNative "k" "/t"] :=
  ⟨(c9_jump_protocol "/p" ⟨"k", "/t"⟩ 0 false).1 rfl,
   (c9_jump_protocol "/p" ⟨"k", "/t"⟩ 2 true).2.1 (by decide) rfl,
   (c9_jump_protocol "/p" ⟨"k", "/t"⟩ 2 false).2.2 (by decide) rfl⟩

/-- C10: the revert callback handed to the gate for a pending pop with
delta `n` is idempotent: any positive number of calls issues the inverse
force-navigation `go(n * -1)` exactly once, and every call after the first
(i.e. any number of calls from an already-reverted flag) is a no-op on the
browser stack. -/
theorem c10_revert_idempotent (n : Int) (k : Nat) :
    revertPopCalls n (k + 1) false = [Effect.windowGo (n * -1)] ∧
    revertPopCalls n k true = [] := by
  exact ⟨by simp [revertPopCalls, revertPopStep, revertPopCalls_true], revertPopCalls_true n k⟩

/-- C4: `_forceGo` sets the one-shot forced flag; a pop arriving with the
flag set is suppressed (no effects) and clears the flag; a pop arriving
with the flag clear is never suppressed; hence after a forced navigation
exactly the next pop is swallowed and the one after it is handled exactly
as from the unforced state. -/
theorem c4_forced_one_shot (isNext : String → Bool) (st : BHState) (n : Int)
    (l1 l2 : String) :
    (forceGo st n).1.popForced = true ∧
    (∀ st' : BHState, st'.popForced = true →
      handlePop isNext st' l1 = ({ st' with popForced := false }, [])) ∧
    (∀ st' : BHState, st'.popForced = false →
      (handlePop isNext st' l1).2 ≠ []) ∧
    (st.popForced = false →
      handlePop isNext (handlePop isNext (forceGo st n).1 l1).1 l2 =
        handlePop isNext st l2) := by
  refine ⟨rfl, fun st' h => ?_, fun st' h => ?_, fun h => ?_⟩
  · simp [handlePop, h]
  · simp only [handlePop, h, if_false, Bool.false_eq_true]
    cases st'.pendingPop with
    | none => simp
    | some p => by_cases he : l1 = st'.url <;> simp [he, forceGo]
  · have h1 : (handlePop isNext (forceGo st n).1 l1).1 = st := by
      simp [handlePop, forceGo]
      exact bhstate_eta st h
    rw [h1]

/-- Witness for C4 at a concrete state and inputs. -/
theorem c4_forced_one_shot_witness :
    (handlePop (fun _ => true) { popForced := true, url := "/a" } "/b" =
      ({ popForced := false, url := "/a" }, [])) ∧
    ((handlePop (fun _ => true) { popForced := false, url := "/a" } "/b").2 ≠ []) ∧
    (handlePop (fun _ => true)
        (handlePop (fun _ => true) (forceGo { popForced := false, url := "/a" } 1).1 "/b").1 "/c" =
      handlePop (fun _ => true) { popForced := false, url := "/a" } "/c") :=
  ⟨(c4_forced_one_shot (fun _ => true) { popForced := false, url := "/a" } 1 "/b" "/c").2.1
      { popForced := true, url := "/a" } rfl,
   (c4_forced_one_shot (fun _ => true) { popForced := false, url := "/a" } 1 "/b" "/c").2.2.1
      { popForced := false, url := "/a" } rfl,
   (c4_forced_one_shot (fun _ => true) { popForced := false, url := "/a" } 1 "/b" "/c").2.2.2 rfl⟩

/-- C1 as stated is false on the code: with a pending pop of delta -1 and
the engine's current URL "/5", a second pop reporting "/5" issues the
single force-navigation `go(-1)` — the inverse of the flipped delta — not
`go(+1)` as the claim's equal-URL branch and its double-back-press
scenario predict. -/
theorem c1_counterexample :
    (handlePop (fun _ => false)
        { popForced := false, pendingPop := some (-1), url := "/5" } "/5").2 =
      [Effect.windowGo (-1)] ∧
    [Effect.windowGo (-1)] ≠ [Effect.windowGo 1] := by
  constructor
  · rfl
  · decide

/-- C1 amended: on a second pop while a pop with delta `p` is pending,
the gate is never re-invoked; if the reported URL equals the engine's
current URL the handler flips the sign (`n = p * -1`) but force-navigates
by the INVERSE of that new delta, i.e. by the original pending `p`;
otherwise it force-navigates by the inverse `-p` of the pending delta.
In the double back-press scenario with pending delta -1 and a second pop
reporting the engine's current URL, exactly one net force-navigation is
issued, with delta -1. -/
theorem c1_amended (isNext : String → Bool) (st : BHState) (p : Int)
    (locUrl : String) (hf : st.popForced = false) (hp : st.pendingPop = some p) :
    (locUrl = st.url → handlePop isNext st locUrl =
      ({ st with popForced := true }, [Effect.windowGo p])) ∧
    (locUrl ≠ st.url → handlePop isNext st locUrl =
      ({ st with popForced := true }, [Effect.windowGo (-p)])) ∧
    (∀ m kind, Effect.jumpCall m kind ∉ (handlePop isNext st locUrl).2) ∧
    (p = -1 → locUrl = st.url →
      (handlePop isNext st locUrl).2 = [Effect.windowGo (-1)]) := by
  refine ⟨fun he => ?_, fun he => ?_, fun m kind => ?_, fun h1 he => ?_⟩
  · simp [handlePop, forceGo, hf, hp, he]
  · simp [handlePop, forceGo, hf, hp, he]
  · simp only [handlePop, hf, Bool.false_eq_true, if_false, hp]
    by_cases he : locUrl = st.url <;> simp [he, forceGo]
  · simp [handlePop, forceGo, hf, hp, he, h1]

/-- Witness for C1 amended at a concrete pending state, exercising both
second-pop branches and the double-back scenario. -/
theorem c1_amended_witness :
    (handlePop (fun _ => false)
        { popForced := false, pendingPop := some (-1), url := "/five" } "/five" =
      ({ popForced := true, pendingPop := some (-1), url := "/five" },
        [Effect.windowGo (-1)])) ∧
    (handlePop (fun _ => false)
        { popForced := false, pendingPop := some (-1), url := "/five" } "/three" =
      ({ popForced := true, pendingPop := some (-1), url := "/five" },
        [Effect.windowGo 1])) ∧
    (handlePop (fun _ => false)
        { popForced := false, pendingPop := some (-1), url := "/five" } "/five").2 =
      [Effect.windowGo (-1)] := by
  have h := c1_amended (fun _ => false)
    { popForced := false, pendingPop := some (-1), url := "/five" } (-1) "/five" rfl rfl
  have h2 := c1_amended (fun _ => false)
    { popForced := false, pendingPop := some (-1), url := "/five" } (-1) "/three" rfl rfl
  refine ⟨?_, ?_, h.2.2.2 rfl rfl⟩
  · simpa using h.1 rfl
  · simpa using h2.2.1 (by decide)

/-!
Association-list lemmas for the JS spread merge.
-/

theorem alookup_append {α : Type} (a b : List (String × α)) (k : String) :
    alookup (a ++ b) k = (alookup a k).or (alookup b k) := by
  induction a with
  | nil => simp [alookup]
  | cons kv rest ih =>
    obtain ⟨k1, v1⟩ := kv
    by_cases h : k1 = k <;> simp [alookup, h, ih]

theorem alookup_map_override (b : Params) (a : Params) (k : String) :
    alookup (a.map (fun kv => (kv.1, (alookup b kv.1).getD kv.2))) k =
      (alookup a k).map (fun v => (alookup b k).getD v) := by
  induction a with
  | nil => simp [alookup]
  | cons kv rest ih =>
    obtain ⟨k1, v1⟩ := kv
    by_cases h : k1 = k
    · subst h; simp [alookup, ih]
    · simp [alookup, h, ih]

theorem alookup_filter_out (a b : Params) (k : String) (h : alookup a k = none) :
    alookup (b.filter (fun kv => (alookup a kv.1).isNone)) k = alookup b k := by
  induction b with
  | nil => simp [alookup]
  | cons kv rest ih =>
    obtain ⟨k1, v1⟩ := kv
    by_cases hk : k1 = k
    · subst hk
      simp [List.filter, alookup, h, ih]
    · by_cases hp : (alookup a k1).isNone <;>
        simp [List.filter, alookup, hk, hp, ih]

/-- Lookup through the JS spread merge: a key present in the override
object keeps its override value; a key absent from it falls back to the
default object. -/
theorem alookup_jsSpread (d ps : Params) (k : String) :
    alookup (jsSpread d ps) k =
      match alookup d k with
      | some dv => some ((alookup ps k).getD dv)
      | none => alookup ps k := by
  unfold jsSpread
  rw [alookup_append, alookup_map_override]
  cases h : alookup d k with
  | none => simp [Option.or, alookup_filter_out _ _ _ h]
  | some dv => simp [Option.or]

/-- Values surviving the `fromPath` per-key loop are never `undefined`
(the loop deletes keys whose transformed value is `undefined`). -/
theorem fromPathLoop_no_undef (dec : String → String) (r : Route) (o : Opts) :
    ∀ params ps, fromPathLoop dec r o params = Except.ok ps →
      ∀ kv ∈ ps, kv.2 ≠ JsVal.undef := by
  intro params
  induction params with
  | nil =>
    intro ps h kv hkv
    simp only [fromPathLoop] at h
    cases h
    simp at hkv
  | cons head rest ih =>
    obtain ⟨k, val⟩ := head
    intro ps h kv hkv
    simp only [fromPathLoop] at h
    cases hres : (match r.fromPath with
      | some f => Except.ok (f (decodeParamVal dec val) k val r.data o.data)
      | none => defaultFromPath (decodeParamVal dec val) k val r.data o) with
    | error e => rw [hres] at h; cases h
    | ok newVal =>
      rw [hres] at h
      cases htail : fromPathLoop dec r o rest with
      | error e => rw [htail] at h; cases h
      | ok tail =>
        rw [htail] at h
        by_cases hnv : newVal = JsVal.undef
        · simp only [hnv, if_pos, Except.ok.injEq] at h
          subst h
          exact ih tail htail kv hkv
        · simp only [if_neg hnv, Except.ok.injEq] at h
          subst h
          cases hkv with
          | head => exact hnv
          | tail _ hmem => exact ih tail htail kv hmem

/-- C6: after the per-key transforms produce `ps`, an object
`defaultParams` (route-level winning over option-level) yields exactly the
spread merge of the defaults under the transformed values, so a default
never overrides a present transformed parameter and a key removed by an
undefined transform result falls back to the default; a function
`defaultParams` receives `(params, route, options)` and fully determines
the result.  Transformed values surviving the loop are never undefined. -/
theorem c6_default_params (dec : String → String) (r : Route) (o : Opts)
    (params ps : Params) (h : fromPathLoop dec r o params = Except.ok ps) :
    (∀ d, (r.defaultParams <|> o.defaultParams) = some (DefaultObj.obj d) →
      fromPath dec r o params = Except.ok (jsSpread d ps) ∧
      (∀ k v, alookup ps k = some v → alookup (jsSpread d ps) k = some v) ∧
      (∀ k, alookup ps k = none → alookup (jsSpread d ps) k = alookup d k)) ∧
    (∀ f, (r.defaultParams <|> o.defaultParams) = some (DefaultObj.fn f) →
      fromPath dec r o params = Except.ok (f ps r.data o.data)) ∧
    (∀ kv ∈ ps, kv.2 ≠ JsVal.undef) := by
  refine ⟨fun d hd => ⟨?_, fun k v hk => ?_, fun k hk => ?_⟩, fun f hf => ?_,
    fromPathLoop_no_undef dec r o params ps h⟩
  · simp [fromPath, h, applyDefaultObj, hd]
  · rw [alookup_jsSpread]
    cases hdk : alookup d k <;> simp [hk]
  · rw [alookup_jsSpread]
    cases hdk : alookup d k <;> simp [hk, hdk]
  · simp [fromPath, h, applyDefaultObj, hf]

/-- Witness for C6: a concrete route with object defaults — the explicit
transformed value for "b" wins over the default, the key "c" (whose
transform yielded undefined) is removed and supplied by nothing here, and
the default supplies the missing "a"; and a function default fully
replaces. -/
theorem c6_default_params_witness :
    fromPath id
      { defaultParams := some (DefaultObj.obj [("a", JsVal.str "A"), ("b", JsVal.str "B")]) }
      {} [("b", JsVal.str "x"), ("c", JsVal.undef)] =
      Except.ok [("a", JsVal.str "A"), ("b", JsVal.str "x")] ∧
    fromPath id
      { defaultParams := some (DefaultObj.fn (fun _ _ _ => [("z", JsVal.num 1)])) }
      {} [("b", JsVal.str "x")] =
      Except.ok [("z", JsVal.num 1)] := by
  constructor
  · have h := (c6_default_params id
      { defaultParams := some (DefaultObj.obj [("a", JsVal.str "A"), ("b", JsVal.str "B")]) }
      {} [("b", JsVal.str "x"), ("c", JsVal.undef)] [("b", JsVal.str "x")] rfl).1
      [("a", JsVal.str "A"), ("b", JsVal.str "B")] rfl
    exact h.1.trans (congrArg Except.ok (by decide))
  · exact ((c6_default_params id
      { defaultParams := some (DefaultObj.fn (fun _ _ _ => [("z", JsVal.num 1)])) }
      {} [("b", JsVal.str "x")] [("b", JsVal.str "x")] rfl).2.1
      (fun _ _ _ => [("z", JsVal.num 1)]) rfl)

/-- C5 as stated is false on the code: an undefined optional parameter is
claimed to be "neither URL-decoded nor processed by any transform", but
the code still passes the undecoded `undefined` through the transform
chain — here a route `fromPath` hook receives it and produces "X", where
the claim predicts the key would simply be dropped untransformed. -/
theorem c5_counterexample :
    fromPath id { fromPath := some (fun _ _ _ _ _ => JsVal.str "X") } {}
      [("id", JsVal.undef)] = Except.ok [("id", JsVal.str "X")] ∧
    ([("id", JsVal.str "X")] : Params) ≠ [] := by
  exact ⟨rfl, by decide⟩

/-- C5 amended: a DEFINED raw parameter value is URL-decoded and then
exactly one transform applies, in this precedence order: the route's
`fromPath` hook; else numeric auto-convert (all-digit decoded string, and
conversion enabled by the route or globally enabled and not disabled
per-route) which always yields a number; else capitalization (enabled the
same way); else the global `fromPath` option; else the decoded string
unchanged.  An UNDEFINED raw value is NOT URL-decoded, but it IS still fed
to the transform chain: a route hook receives the undefined value;
capitalization on it is a thrown TypeError; with no applicable transform
it passes through as undefined and its key is removed.  (A transformed
value of undefined always removes the key.) -/
theorem c5_amended (dec : String → String) (r : Route) (o : Opts) (k s : String) :
    (∀ f, r.fromPath = some f → s ≠ "" →
      fromPathLoop dec r o [(k, JsVal.str s)] =
        Except.ok (if f (JsVal.str (dec s)) k (JsVal.str s) r.data o.data = JsVal.undef
          then [] else [(k, f (JsVal.str (dec s)) k (JsVal.str s) r.data o.data)])) ∧
    (r.fromPath = none → s ≠ "" →
      (effConvertNumbers r.data o.data && isNumber (JsVal.str (dec s))) = true →
      fromPathLoop dec r o [(k, JsVal.str s)] =
        Except.ok [(k, parseFloatDigits (JsVal.str (dec s)))]) ∧
    (∀ v, ∃ nn, parseFloatDigits v = JsVal.num nn) ∧
    (r.fromPath = none → s ≠ "" →
      (effConvertNumbers r.data o.data && isNumber (JsVal.str (dec s))) = false →
      effCapitalized r.data o.data = true →
      fromPathLoop dec r o [(k, JsVal.str s)] =
        Except.ok [(k, JsVal.str (jsCapitalizeStr (dec s)))]) ∧
    (∀ g, r.fromPath = none → s ≠ "" →
      (effConvertNumbers r.data o.data && isNumber (JsVal.str (dec s))) = false →
      effCapitalized r.data o.data = false → o.fromPath = some g →
      fromPathLoop dec r o [(k, JsVal.str s)] =
        Except.ok (if g (JsVal.str (dec s)) k (JsVal.str s) r.data o.data = JsVal.undef
          then [] else [(k, g (JsVal.str (dec s)) k (JsVal.str s) r.data o.data)])) ∧
    (r.fromPath = none → s ≠ "" →
      (effConvertNumbers r.data o.data && isNumber (JsVal.str (dec s))) = false →
      effCapitalized r.data o.data = false → o.fromPath = none →
      fromPathLoop dec r o [(k, JsVal.str s)] = Except.ok [(k, JsVal.str (dec s))]) ∧
    (∀ f, r.fromPath = some f →
      fromPathLoop dec r o [(k, JsVal.undef)] =
        Except.ok (if f JsVal.undef k JsVal.undef r.data o.data = JsVal.undef
          then [] else [(k, f JsVal.undef k JsVal.undef r.data o.data)])) ∧
    (r.fromPath = none → effCapitalized r.data o.data = true →
      fromPathLoop dec r o [(k, JsVal.undef)] =
        Except.error (JsErr.typeError "Cannot read property replace of a non-string")) ∧
    (r.fromPath = none → effCapitalized r.data o.data = false → o.fromPath = none →
      fromPathLoop dec r o [(k, JsVal.undef)] = Except.ok []) := by
  have hundef : isNumber JsVal.undef = false := by decide
  refine ⟨fun f hf hs => ?_, fun hf hs hc => ?_, fun v => ⟨_, rfl⟩,
    fun hf hs hc hcap => ?_, fun g hf hs hc hcap hg => ?_,
    fun hf hs hc hcap hg => ?_, fun f hf => ?_, fun hf hcap => ?_,
    fun hf hcap hg => ?_⟩
  · by_cases hnv : f (JsVal.str (dec s)) k (JsVal.str s) r.data o.data = JsVal.undef <;>
      simp [fromPathLoop, decodeParamVal, hf, hs, hnv]
  · have hc1 : effConvertNumbers r.data o.data = true := by
      cases h1 : effConvertNumbers r.data o.data <;> simp [h1] at hc ⊢
    have hc2 : isNumber (JsVal.str (dec s)) = true := by
      cases h2 : isNumber (JsVal.str (dec s)) <;> simp [h2] at hc ⊢
    simp [fromPathLoop, decodeParamVal, defaultFromPath, hf, hs, hc1, hc2,
      parseFloatDigits]
  · simp [fromPathLoop, decodeParamVal, defaultFromPath, hf, hs, hc, hcap]
  · by_cases hnv : g (JsVal.str (dec s)) k (JsVal.str s) r.data o.data = JsVal.undef <;>
      simp [fromPathLoop, decodeParamVal, defaultFromPath, hf, hs, hc, hcap, hg, hnv]
  · simp [fromPathLoop, decodeParamVal, defaultFromPath, hf, hs, hc, hcap, hg]
  · by_cases hnv : f JsVal.undef k JsVal.undef r.data o.data = JsVal.undef <;>
      simp [fromPathLoop, decodeParamVal, hf, hnv]
  · simp [fromPathLoop, decodeParamVal, defaultFromPath, hf, hcap, hundef]
  · simp [fromPathLoop, decodeParamVal, defaultFromPath, hf, hcap, hg, hundef]

/-- Witness for C5 at concrete inputs, realizing the claim's examples:
numeric auto-convert turns the decoded segment "42" into the number 42
(not the string), capitalization turns "my-category" into "My Category",
and an undefined optional parameter with no applicable transform passes
through undecoded and has its key removed. -/
theorem c5_amended_witness :
    fromPathLoop id { data := { convertNumbers := some true } } {}
      [("n", JsVal.str "42")] = Except.ok [("n", JsVal.num 42)] ∧
    fromPathLoop id { data := { capitalizedWords := some true } } {}
      [("cat", JsVal.str "my-category")] =
      Except.ok [("cat", JsVal.str "My Category")] ∧
    fromPathLoop id {} {} [("opt", JsVal.undef)] = Except.ok [] := by
  refine ⟨?_, ?_, ?_⟩
  · have h := (c5_amended id { data := { convertNumbers := some true } } {}
      "n" "42").2.1 rfl (by decide) (by decide)
    exact h.trans (congrArg Except.ok (by decide))
  · have h := (c5_amended id { data := { capitalizedWords := some true } } {}
      "cat" "my-category").2.2.2.1 rfl (by decide) (by decide) rfl
    exact h.trans (congrArg Except.ok (by decide))
  · exact (c5_amended id {} {} "opt" "x").2.2.2.2.2.2.2.2 rfl rfl rfl

/-!
Lemmas about the matching loop of `urlToAction`.
-/

theorem routeLoop_skip (dec : String → String) (m : Matcher) (l : Location)
    (o : Opts) (bn : String) (st : Params) :
    ∀ pre rest, (∀ tr ∈ pre, m l tr.2.data = none) →
      routeLoop dec m l o bn st (pre ++ rest) = routeLoop dec m l o bn st rest := by
  intro pre
  induction pre with
  | nil => intro rest _; rfl
  | cons head tail ih =>
    intro rest hall
    obtain ⟨t, r⟩ := head
    have hh : m l r.data = none := hall (t, r) (by simp)
    have := ih rest (fun tr htr => hall tr (by simp [htr]))
    simpa [routeLoop, matchUrl, hh] using this

theorem routeLoop_none (dec : String → String) (m : Matcher) (l : Location)
    (o : Opts) (bn : String) (st : Params) (ts : List (String × Route))
    (hall : ∀ tr ∈ ts, m l tr.2.data = none) :
    routeLoop dec m l o bn st ts = Except.ok none := by
  have := routeLoop_skip dec m l o bn st ts [] hall
  simpa using this

/-- C2 as stated is false on the code: `url.replace(basename, '')` removes
the FIRST occurrence of the basename anywhere in the URL, not the leading
prefix.  With URL "/p#b" and basename "b" (which is not a prefix), the
code removes the "b" inside the hash, producing an empty hash on the
resulting NOT_FOUND action, while the spec's prefix-stripping reading
(`urlToActionSpecStrip`) keeps hash "b". -/
theorem c2_counterexample :
    urlToAction id (fun _ _ => none) (InLoc.obj "/p#b" "b" []) [] {} "" =
      Except.ok { type := "NOT_FOUND", basename := "b" } ∧
    urlToActionSpecStrip id (fun _ _ => none) (InLoc.obj "/p#b" "b" []) [] {} "" =
      Except.ok { type := "NOT_FOUND", hash := "b", basename := "b" } ∧
    ({ type := "NOT_FOUND", basename := "b" } : Action) ≠
      { type := "NOT_FOUND", hash := "b", basename := "b" } := by
  refine ⟨rfl, rfl, by decide⟩

/-- C2 amended: the translator removes the FIRST occurrence of the
basename from the URL (which coincides with stripping the basename prefix
whenever the basename is a leading prefix), iterates only the path-bearing
routes of the table in declaration order, returns the action built from
the first route whose pattern matches without trying any further routes,
and routes without a path never participate in URL translation. -/
theorem c2_amended (dec : String → String) (m : Matcher) (url basename : String)
    (st : Params) (routes : List (String × Route)) (o : Opts) (scene : String) :
    (∀ rest, dropLead url.toList basename.toList = some rest →
      jsReplaceFirst url basename = String.mk rest) ∧
    (∀ pre t0 r0 post ps qs h,
      routes.filter (fun tr => pathTruthy tr.2.data.path) = pre ++ (t0, r0) :: post →
      (∀ tr ∈ pre, m (urlToLocation (jsReplaceFirst url basename)) tr.2.data = none) →
      matchUrl dec m (urlToLocation (jsReplaceFirst url basename)) r0 o =
        Except.ok (some (ps, qs, h)) →
      urlToAction dec m (InLoc.obj url basename st) routes o scene =
        Except.ok { type := t0
                    params := ps
                    query := qs
                    hash := h
                    basename := basename
                    state := fromState st r0 o }) ∧
    (∀ t r, pathTruthy r.data.path = false →
      (t, r) ∉ routes.filter (fun tr => pathTruthy tr.2.data.path)) := by
  refine ⟨fun rest hdrop => ?_, fun pre t0 r0 post ps qs h hfilter hpre hmatch => ?_,
    fun t r hpath hmem => ?_⟩
  · unfold jsReplaceFirst
    simp only [String.toList] at hdrop
    cases hc : url.data with
    | nil => rw [hc] at hdrop; simp [String.toList, replaceFirstChars, hc, hdrop]
    | cons c cs => rw [hc] at hdrop; simp [String.toList, replaceFirstChars, hc, hdrop]
  · simp only [urlToAction, destructureLoc]
    rw [hfilter, routeLoop_skip dec m _ o basename st pre _ hpre]
    simp [routeLoop, hmatch]
  · rw [List.mem_filter] at hmem
    rw [hpath] at hmem
    exact absurd hmem.2 (by simp)

/-- Witness for C2 amended: basename "/x" is a prefix of "/x/a" and is
stripped; with two path-bearing routes "A" and "B" both matching "/a" and
a pathless route first in the table, the translator returns "A" (the
first path-bearing match, in declaration order), and the pathless route
is excluded from participation. -/
theorem c2_amended_witness :
    jsReplaceFirst "/x/a" "/x" = String.mk ['/', 'a'] ∧
    urlToAction id
      (fun l rd => if rd.path = some "/a" ∧ l.pathname = "/a" then some {} else none)
      (InLoc.obj "/x/a" "/x" [])
      [("HOME", {}), ("A", { data := { path := some "/a" } }),
       ("B", { data := { path := some "/a" } })] {} "" =
      Except.ok { type := "A", basename := "/x" } ∧
    ("HOME", ({} : Route)) ∉
      ([("HOME", {}), ("A", { data := { path := some "/a" } }),
        ("B", { data := { path := some "/a" } })] :
        List (String × Route)).filter (fun tr => pathTruthy tr.2.data.path) := by
  have h := c2_amended id
    (fun l rd => if rd.path = some "/a" ∧ l.pathname = "/a" then some {} else none)
    "/x/a" "/x" []
    [("HOME", {}), ("A", { data := { path := some "/a" } }),
     ("B", { data := { path := some "/a" } })] {} ""
  refine ⟨h.1 ['/', 'a'] rfl, ?_, h.2.2 "HOME" {} rfl⟩
  exact h.2.1 [] "A" { data := { path := some "/a" } }
    [("B", { data := { path := some "/a" } })] [] [] ""
    rfl (fun tr htr => absurd htr (List.not_mem_nil tr)) rfl

/-- C7: when no route matches, the translator synthesizes a NOT_FOUND
action of the same shape as a matched action, never an error: its type is
the scene-scoped NOT_FOUND when that exists in the table and the unscoped
NOT_FOUND otherwise, its params are empty, its hash is the raw hash (or
empty), its state is the inbound state unmodified, and its query is empty
when no search string is present, else the result of the table's or the
options' `parseQuery` hook (here assumed available, as it is whenever the
table carries the framework's NOT_FOUND route) on the raw search string. -/
theorem c7_not_found (dec : String → String) (m : Matcher) (url basename : String)
    (st : Params) (routes : List (String × Route)) (o : Opts) (scene : String)
    (hnm : ∀ tr ∈ routes.filter (fun tr => pathTruthy tr.2.data.path),
      m (urlToLocation (jsReplaceFirst url basename)) tr.2.data = none) :
    ((urlToLocation (jsReplaceFirst url basename)).search = "" →
      urlToAction dec m (InLoc.obj url basename st) routes o scene =
        Except.ok { type := if (alookup routes (scene ++ "/NOT_FOUND")).isSome
                            then scene ++ "/NOT_FOUND" else NOT_FOUND
                    params := []
                    query := []
                    hash := (urlToLocation (jsReplaceFirst url basename)).hash
                    state := st
                    basename := basename }) ∧
    (∀ f, parseQueryFn routes o = Except.ok f →
      urlToAction dec m (InLoc.obj url basename st) routes o scene =
        Except.ok { type := if (alookup routes (scene ++ "/NOT_FOUND")).isSome
                            then scene ++ "/NOT_FOUND" else NOT_FOUND
                    params := []
                    query := if (urlToLocation (jsReplaceFirst url basename)).search = ""
                             then []
                             else f ((urlToLocation (jsReplaceFirst url basename)).search)
                    hash := (urlToLocation (jsReplaceFirst url basename)).hash
                    state := st
                    basename := basename }) := by
  have hloop := routeLoop_none dec m (urlToLocation (jsReplaceFirst url basename))
    o basename st (routes.filter (fun tr => pathTruthy tr.2.data.path)) hnm
  constructor
  · intro hs
    simp only [urlToAction, destructureLoc]
    rw [hloop]
    by_cases ht : (alookup routes (scene ++ "/NOT_FOUND")).isSome <;>
      simp [hs, ht, notFound, NOT_FOUND]
  · intro f hf
    simp only [urlToAction, destructureLoc]
    rw [hloop]
    by_cases hs : (urlToLocation (jsReplaceFirst url basename)).search = "" <;>
      by_cases ht : (alookup routes (scene ++ "/NOT_FOUND")).isSome <;>
        simp [hs, ht, hf, notFound, NOT_FOUND]

/-- Witness for C7: an unmatched URL with a search string and a hash,
against a table whose NOT_FOUND route carries a `parseQuery` hook, yields
the unscoped NOT_FOUND action with the parsed query, the raw hash, and the
inbound state. -/
theorem c7_not_found_witness :
    urlToAction id (fun _ _ => none) (InLoc.obj "/nope?x=1#hh" "" [("s", JsVal.num 7)])
      [("NOT_FOUND", { parseQuery := some (fun q => [("raw", JsVal.str q)]) })] {} "" =
      Except.ok { type := "NOT_FOUND"
                  params := []
                  query := [("raw", JsVal.str "x=1")]
                  hash := "hh"
                  state := [("s", JsVal.num 7)]
                  basename := "" } := by
  have h := (c7_not_found id (fun _ _ => none) "/nope?x=1#hh" "" [("s", JsVal.num 7)]
    [("NOT_FOUND", { parseQuery := some (fun q => [("raw", JsVal.str q)]) })] {} ""
    (fun tr htr => rfl)).2 (fun q => [("raw", JsVal.str q)]) rfl
  exact h.trans (congrArg Except.ok (by decide))

/-- The `defaultFromPath` chain never throws on a string value (only the
capitalization branch can throw, and only on a non-string). -/
theorem defaultFromPath_str_ok (s : String) (k : String) (val : JsVal)
    (r : RouteData) (o : Opts) :
    ∃ v, defaultFromPath (JsVal.str s) k val r o = Except.ok v := by
  unfold defaultFromPath
  by_cases h1 : (effConvertNumbers r o.data && isNumber (JsVal.str s)) = true
  · exact ⟨_, by rw [if_pos h1]⟩
  · rw [if_neg h1]
    by_cases h2 : effCapitalized r o.data = true
    · exact ⟨_, by rw [if_pos h2]⟩
    · rw [if_neg h2]
      cases o.fromPath with
      | some g => exact ⟨_, rfl⟩
      | none => exact ⟨_, rfl⟩

/-- The `fromPath` per-key loop never throws when every raw value is a
string. -/
theorem fromPathLoop_str_total (dec : String → String) (r : Route) (o : Opts) :
    ∀ params : Params, (∀ kv ∈ params, ∃ s, kv.2 = JsVal.str s) →
      ∃ ps, fromPathLoop dec r o params = Except.ok ps := by
  intro params
  induction params with
  | nil => exact fun _ => ⟨[], rfl⟩
  | cons head rest ih =>
    intro hstr
    obtain ⟨k, v⟩ := head
    obtain ⟨s, hs⟩ := hstr (k, v) (by simp)
    obtain ⟨tail, htail⟩ := ih (fun kv hkv => hstr kv (by simp [hkv]))
    simp only at hs
    subst hs
    have hok : ∃ nv, (match r.fromPath with
        | some f => Except.ok (f (decodeParamVal dec (JsVal.str s)) k (JsVal.str s) r.data o.data)
        | none => defaultFromPath (decodeParamVal dec (JsVal.str s)) k (JsVal.str s) r.data o) =
        Except.ok nv := by
      cases hf : r.fromPath with
      | some f => exact ⟨_, rfl⟩
      | none =>
        simp only [decodeParamVal]
        by_cases he : s = ""
        · simpa [he] using defaultFromPath_str_ok "" k (JsVal.str s) r.data o
        · simpa [he] using defaultFromPath_str_ok (dec s) k (JsVal.str s) r.data o
    obtain ⟨nv, hnv⟩ := hok
    refine ⟨if nv = JsVal.undef then tail else (k, nv) :: tail, ?_⟩
    simp only [fromPathLoop]
    rw [hnv, htail]
    by_cases h2 : nv = JsVal.undef <;> simp [h2]

/-- The matching loop never throws when every raw match the matcher can
produce for the listed routes carries only string parameter values. -/
theorem routeLoop_str_total (dec : String → String) (m : Matcher) (l : Location)
    (o : Opts) (bn : String) (st : Params) :
    ∀ ts : List (String × Route),
      (∀ tr ∈ ts, ∀ raw, m l tr.2.data = some raw →
        ∀ kv ∈ raw.params, ∃ s, kv.2 = JsVal.str s) →
      ∃ res, routeLoop dec m l o bn st ts = Except.ok res := by
  intro ts
  induction ts with
  | nil => exact fun _ => ⟨none, rfl⟩
  | cons head rest ih =>
    intro hstr
    obtain ⟨t, r⟩ := head
    obtain ⟨res, hres⟩ := ih (fun tr htr => hstr tr (by simp [htr]))
    cases hm : m l r.data with
    | none =>
      refine ⟨res, ?_⟩
      simpa [routeLoop, matchUrl, hm] using hres
    | some raw =>
      obtain ⟨ps, hok⟩ := fromPathLoop_str_total dec r o raw.params
        (hstr (t, r) (by simp) raw hm)
      refine ⟨some { type := t
                     params := applyDefaultObj (r.defaultParams <|> o.defaultParams) ps r.data o.data
                     query := fromSearch r o raw.query
                     hash := fromHash r o raw.hash
                     basename := bn
                     state := fromState st r o }, ?_⟩
      simp [routeLoop, matchUrl, hm, fromPath, hok]

/-- C8 as stated is false on the code: a matched URL carrying an
undefined optional path parameter, on a route with `capitalizedWords`
enabled, makes the translator throw a TypeError (the capitalization
branch calls `.replace` on `undefined`), so an exception does escape. -/
theorem c8_counterexample :
    urlToAction id
      (fun _ rd => if rd.path = some "/c/:id?"
        then some { params := [("id", JsVal.undef)] } else none)
      (InLoc.strUrl "/c")
      [("CAPPED", { data := { path := some "/c/:id?", capitalizedWords := some true } })]
      {} "" =
      Except.error (JsErr.typeError "Cannot read property replace of a non-string") := by
  rfl

/-- C8 amended: the translator terminates with a well-formed action and
no escaping exception PROVIDED that every raw path-parameter value the
matcher produces for the table's routes is a defined string, and that —
for unmatched URLs carrying a search string — a `parseQuery` hook is
reachable (the table carries a NOT_FOUND route and it or the options
supply the hook).  The counterexample shows the claim's unconditional
form, explicitly including undefined optional parameters, is false. -/
theorem c8_amended (dec : String → String) (m : Matcher) (url basename : String)
    (st : Params) (routes : List (String × Route)) (o : Opts) (scene : String)
    (hstr : ∀ tr ∈ routes, ∀ raw,
      m (urlToLocation (jsReplaceFirst url basename)) tr.2.data = some raw →
      ∀ kv ∈ raw.params, ∃ s, kv.2 = JsVal.str s)
    (hq : (urlToLocation (jsReplaceFirst url basename)).search = "" ∨
      ∃ f, parseQueryFn routes o = Except.ok f) :
    ∃ a, urlToAction dec m (InLoc.obj url basename st) routes o scene =
      Except.ok a := by
  obtain ⟨res, hres⟩ := routeLoop_str_total dec m
    (urlToLocation (jsReplaceFirst url basename)) o basename st
    (routes.filter (fun tr => pathTruthy tr.2.data.path))
    (fun tr htr => hstr tr (List.mem_of_mem_filter htr))
  cases res with
  | some a =>
    exact ⟨a, by simp [urlToAction, destructureLoc, hres]⟩
  | none =>
    cases hx : urlToAction dec m (InLoc.obj url basename st) routes o scene with
    | ok a => exact ⟨a, rfl⟩
    | error e =>
      exfalso
      rcases hq with hs | ⟨f, hf⟩
      · simp [urlToAction, destructureLoc, hres, hs] at hx
      · by_cases hs : (urlToLocation (jsReplaceFirst url basename)).search = "" <;>
          simp [urlToAction, destructureLoc, hres, hs, hf] at hx

/-- Witness for C8 amended at a concrete input: a matcher that never
matches and a URL with no search string. -/
theorem c8_amended_witness :
    ∃ a, urlToAction id (fun _ _ => none) (InLoc.obj "/z" "" []) [] {} "" =
      Except.ok a :=
  c8_amended id (fun _ _ => none) "/z" "" [] [] {} ""
    (fun tr _ raw hm => absurd hm (by simp))
    (Or.inl rfl)

/-!
Invariants of the retry-queue machine.
-/

/-- The tasks requested by a script, in arrival order. -/
def arrivalTasks : List SEvent → List WTask
  | [] => []
  | .arrive t :: es => t :: arrivalTasks es
  | .fire :: es => arrivalTasks es

/-- The tasks carried by a single event. -/
def eventTasks : SEvent → List WTask
  | .arrive t => [t]
  | .fire => []

/-- The structural invariant of the retry-queue state: an idle counter
means nothing is queued or active; a recorded throw happened at the retry
bound with no timer outstanding; an outstanding timer implies the counter
is still under the bound, which itself is never exceeded. -/
def SInv (s : SState) : Prop :=
  (s.tries = 0 → s.queue = [] ∧ s.active = none) ∧
  (s.threw.isSome → s.tries = maxTries ∧ s.active = none) ∧
  (s.active.isSome → s.tries < maxTries) ∧
  s.tries ≤ maxTries

theorem pollOnce_spec (isTest : Bool) (s : SState) (t : WTask)
    (_ha : s.active = none) (hth : s.threw = none) (htr : s.tries < maxTries) :
    (∀ s1, pollOnce isTest s t = PollStep.wait s1 →
      SInv s1 ∧ idsOf s1 = s.completed ++ t.id :: s.queue.map WTask.id ∧
      s1.threw = none ∧
      (∀ d ∈ s1.delays, d ∈ s.delays ∨ d = retryDelayMs) ∧
      s1.queue = s.queue ∧ s1.active = some t) ∧
    (∀ s1, pollOnce isTest s t = PollStep.thrown s1 →
      SInv s1 ∧ idsOf s1 = s.completed ++ t.id :: s.queue.map WTask.id ∧
      isTest = true ∧ s1.threw = some t.id ∧ maxTries < t.readyAt ∧
      s1.delays = s.delays ∧ s1.queue = s.queue ∧ s1.active = none) ∧
    (∀ s1, pollOnce isTest s t = PollStep.done s1 →
      s1 = { s with tries := 0, completed := s.completed ++ [t.id], active := none }) := by
  unfold pollOnce
  by_cases hb1 : (!taskReady t (s.tries + 1) && decide (s.tries + 1 < maxTries)) = true
  · obtain ⟨hr, hlt⟩ := Bool.and_eq_true_iff.mp hb1
    have hlt1 : s.tries + 1 < maxTries := of_decide_eq_true hlt
    refine ⟨fun s1 h1 => ?_, fun s1 h1 => by simp [hb1] at h1, fun s1 h1 => by simp [hb1] at h1⟩
    rw [if_pos hb1] at h1
    cases h1
    refine ⟨⟨by simp, by simp [hth], fun _ => hlt1, le_of_lt hlt1⟩,
      by simp [idsOf, hth], hth, fun d hd => ?_, rfl, rfl⟩
    simp only [List.mem_append, List.mem_singleton] at hd
    rcases hd with hd | hd
    · exact Or.inl hd
    · exact Or.inr hd
  · by_cases hb2 : (isTest && !taskReady t (s.tries + 1)) = true
    · obtain ⟨hit, hr⟩ := Bool.and_eq_true_iff.mp hb2
      have htr1 : s.tries + 1 = maxTries := by
        rcases Nat.lt_or_ge (s.tries + 1) maxTries with h | h
        · exact absurd (Bool.and_eq_true_iff.mpr ⟨hr, decide_eq_true h⟩) hb1
        · exact Nat.le_antisymm htr h
      have hready : maxTries < t.readyAt := by
        have h2 := hr
        simp only [taskReady, Bool.not_eq_true', decide_eq_false_iff_not, Nat.not_le] at h2
        omega
      refine ⟨fun s1 h1 => by simp [hb1, hb2] at h1, fun s1 h1 => ?_,
        fun s1 h1 => by simp [hb1, hb2] at h1⟩
      rw [if_neg hb1, if_pos hb2] at h1
      cases h1
      exact ⟨⟨fun h0 => absurd h0 (Nat.succ_ne_zero s.tries), fun _ => ⟨htr1, rfl⟩,
        by simp, le_of_eq htr1⟩, by simp [idsOf], hit, rfl, hready, rfl, rfl, rfl⟩
    · refine ⟨fun s1 h1 => by simp [hb1, hb2] at h1, fun s1 h1 => by simp [hb1, hb2] at h1,
        fun s1 h1 => ?_⟩
      rw [if_neg hb1, if_neg hb2] at h1
      cases h1
      rfl

theorem beginPoll_spec (isTest : Bool) :
    ∀ fuel (s : SState) (t : WTask), s.active = none → s.threw = none →
      s.tries < maxTries → s.queue.length ≤ fuel →
      SInv (beginPoll isTest fuel s t) ∧
      idsOf (beginPoll isTest fuel s t) =
        s.completed ++ t.id :: s.queue.map WTask.id ∧
      (isTest = false → (beginPoll isTest fuel s t).threw = none) ∧
      (∀ i, (beginPoll isTest fuel s t).threw = some i →
        isTest = true ∧ ∃ u, (u = t ∨ u ∈ s.queue) ∧ u.id = i ∧ maxTries < u.readyAt) ∧
      (∀ d ∈ (beginPoll isTest fuel s t).delays, d ∈ s.delays ∨ d = retryDelayMs) ∧
      (∀ u, ((beginPoll isTest fuel s t).active = some u ∨
          u ∈ (beginPoll isTest fuel s t).queue) → u = t ∨ u ∈ s.queue) := by
  intro fuel
  induction fuel with
  | zero =>
    intro s t ha hth htr hf
    have hq : s.queue = [] := List.eq_nil_of_length_eq_zero (Nat.le_zero.mp hf)
    obtain ⟨hw, hthr, hdone⟩ := pollOnce_spec isTest s t ha hth htr
    rw [beginPoll]
    cases hp : pollOnce isTest s t with
    | wait s1 =>
      obtain ⟨i1, i2, i3, i4, i5, i6⟩ := hw s1 hp
      refine ⟨i1, i2, fun _ => i3, fun i hi => ?_, i4, fun u hu => ?_⟩
      · rw [i3] at hi
        cases hi
      · rcases hu with hu | hu
        · rw [i6] at hu
          exact Or.inl (Option.some.inj hu).symm
        · rw [i5] at hu
          exact Or.inr hu
    | thrown s1 =>
      obtain ⟨i1, i2, i3, i4, i5, i6, i7, i8⟩ := hthr s1 hp
      refine ⟨i1, i2, fun hfalse => ?_, fun i hi => ?_, fun d hd => ?_, fun u hu => ?_⟩
      · rw [hfalse] at i3
        cases i3
      · rw [i4] at hi
        exact ⟨i3, t, Or.inl rfl, (Option.some.inj hi).symm ▸ rfl, i5⟩
      · rw [i6] at hd
        exact Or.inl hd
      · rcases hu with hu | hu
        · rw [i8] at hu
          cases hu
        · rw [i7] at hu
          exact Or.inr hu
    | done s1 =>
      have h1 := hdone s1 hp
      subst h1
      refine ⟨⟨fun _ => ⟨hq, rfl⟩, by simp [hth], by simp, by simp [maxTries]⟩,
        by simp [idsOf, hth, hq], fun _ => hth,
        fun i hi => by simp [hth] at hi, fun d hd => Or.inl hd,
        fun u hu => by simp [hq] at hu⟩
  | succ f ih =>
    intro s t ha hth htr hf
    obtain ⟨hw, hthr, hdone⟩ := pollOnce_spec isTest s t ha hth htr
    rw [beginPoll]
    cases hp : pollOnce isTest s t with
    | wait s1 =>
      obtain ⟨i1, i2, i3, i4, i5, i6⟩ := hw s1 hp
      refine ⟨i1, i2, fun _ => i3, fun i hi => ?_, i4, fun u hu => ?_⟩
      · rw [i3] at hi
        cases hi
      · rcases hu with hu | hu
        · rw [i6] at hu
          exact Or.inl (Option.some.inj hu).symm
        · rw [i5] at hu
          exact Or.inr hu
    | thrown s1 =>
      obtain ⟨i1, i2, i3, i4, i5, i6, i7, i8⟩ := hthr s1 hp
      refine ⟨i1, i2, fun hfalse => ?_, fun i hi => ?_, fun d hd => ?_, fun u hu => ?_⟩
      · rw [hfalse] at i3
        cases i3
      · rw [i4] at hi
        exact ⟨i3, t, Or.inl rfl, (Option.some.inj hi).symm ▸ rfl, i5⟩
      · rw [i6] at hd
        exact Or.inl hd
      · rcases hu with hu | hu
        · rw [i8] at hu
          cases hu
        · rw [i7] at hu
          exact Or.inr hu
    | done s1 =>
      have h1 := hdone s1 hp
      subst h1
      cases hq : s.queue with
      | nil =>
        simp only [hq]
        refine ⟨⟨fun _ => ⟨rfl, rfl⟩, by simp [hth], by simp, by simp [maxTries]⟩,
          by simp [idsOf, hth, hq], fun _ => hth,
          fun i hi => by simp [hth] at hi, fun d hd => Or.inl hd,
          fun u hu => by simp at hu⟩
      | cons next rest =>
        simp only [hq]
        have hlen : rest.length ≤ f := by
          rw [hq] at hf
          simpa using hf
        have hih := ih { tries := 0, queue := rest, active := none, completed := s.completed ++ [t.id], threw := s.threw, delays := s.delays } next rfl hth (by simp [maxTries]) hlen
        obtain ⟨i1, i2, i3, i4, i5, i6⟩ := hih
        refine ⟨i1, ?_, i3, fun i hi => ?_, i5, fun u hu => ?_⟩
        · rw [i2]
          simp
        · obtain ⟨hit, u, hu1, hu2, hu3⟩ := i4 i hi
          refine ⟨hit, u, ?_, hu2, hu3⟩
          rcases hu1 with h | h
          · exact Or.inr (by simp [hq, h])
          · exact Or.inr (by simp [hq, List.mem_cons_of_mem, h])
        · rcases i6 u hu with h | h
          · exact Or.inr (by simp [hq, h])
          · exact Or.inr (by simp [hq, List.mem_cons_of_mem, h])

theorem arrivalTasks_cons (e : SEvent) (es : List SEvent) :
    arrivalTasks (e :: es) = eventTasks e ++ arrivalTasks es := by
  cases e <;> rfl

theorem stepEvent_spec (isTest : Bool) (s : SState) (e : SEvent) (hinv : SInv s) :
    SInv (stepEvent isTest s e) ∧
    idsOf (stepEvent isTest s e) = idsOf s ++ (eventTasks e).map WTask.id ∧
    (isTest = false → (stepEvent isTest s e).threw = s.threw) ∧
    (∀ d ∈ (stepEvent isTest s e).delays, d ∈ s.delays ∨ d = retryDelayMs) ∧
    (∀ i, (stepEvent isTest s e).threw = some i → s.threw = some i ∨
      (isTest = true ∧ ∃ u, (s.active = some u ∨ u ∈ s.queue ∨ u ∈ eventTasks e) ∧
        u.id = i ∧ maxTries < u.readyAt)) ∧
    (∀ u, ((stepEvent isTest s e).active = some u ∨ u ∈ (stepEvent isTest s e).queue) →
      s.active = some u ∨ u ∈ s.queue ∨ u ∈ eventTasks e) := by
  obtain ⟨inv1, inv2, inv3, inv4⟩ := hinv
  cases e with
  | arrive t =>
    by_cases h0 : s.tries = 0
    · obtain ⟨hq, ha⟩ := inv1 h0
      have hth : s.threw = none := by
        cases hthrw : s.threw with
        | none => rfl
        | some x =>
          have h2 := (inv2 (by simp [hthrw])).1
          rw [h0] at h2
          exact absurd h2.symm (by decide)
      have hids : idsOf s = s.completed := by
        simp [idsOf, hq, ha, hth]
      have hbp := beginPoll_spec isTest s.queue.length s t ha hth
        (by rw [h0]; decide) le_rfl
      obtain ⟨b1, b2, b3, b4, b5, b6⟩ := hbp
      have hstep : stepEvent isTest s (SEvent.arrive t) =
          beginPoll isTest s.queue.length s t := by
        simp [stepEvent, h0]
      rw [hstep]
      refine ⟨b1, ?_, fun hf => (b3 hf).trans hth.symm, b5, fun i hi => ?_, fun u hu => ?_⟩
      · rw [b2, hids]
        simp [eventTasks, hq]
      · obtain ⟨hit, u, hu1, hu2, hu3⟩ := b4 i hi
        refine Or.inr ⟨hit, u, ?_, hu2, hu3⟩
        rcases hu1 with h | h
        · exact Or.inr (Or.inr (by simp [eventTasks, h]))
        · exact Or.inr (Or.inl h)
      · rcases b6 u hu with h | h
        · exact Or.inr (Or.inr (by simp [eventTasks, h]))
        · exact Or.inr (Or.inl h)
    · have hstep : stepEvent isTest s (SEvent.arrive t) =
          { s with queue := s.queue ++ [t] } := by
        simp [stepEvent, h0]
      rw [hstep]
      refine ⟨⟨fun h => absurd h h0, fun h => inv2 h, fun h => inv3 h, inv4⟩,
        ?_, fun _ => rfl, fun d hd => Or.inl hd, fun i hi => Or.inl hi, fun u hu => ?_⟩
      · simp [idsOf, eventTasks]
      · rcases hu with hu | hu
        · exact Or.inl hu
        · simp at hu
          rcases hu with hu | hu
          · exact Or.inr (Or.inl hu)
          · exact Or.inr (Or.inr (by simp [eventTasks, hu]))
  | fire =>
    cases hact : s.active with
    | none =>
      have hstep : stepEvent isTest s SEvent.fire = s := by
        simp [stepEvent, hact]
      rw [hstep]
      refine ⟨⟨inv1, inv2, inv3, inv4⟩, by simp [eventTasks], fun _ => rfl,
        fun d hd => Or.inl hd, fun i hi => Or.inl hi, fun u hu => ?_⟩
      rcases hu with hu | hu
      · rw [hact] at hu
        exact Or.inl hu
      · exact Or.inr (Or.inl hu)
    | some t =>
      have hth : s.threw = none := by
        cases hthrw : s.threw with
        | none => rfl
        | some x =>
          have h2 := (inv2 (by simp [hthrw])).2
          rw [hact] at h2
          cases h2
      have htr : s.tries < maxTries := inv3 (by simp [hact])
      have hbp := beginPoll_spec isTest s.queue.length { s with active := none } t
        rfl hth htr le_rfl
      obtain ⟨b1, b2, b3, b4, b5, b6⟩ := hbp
      have hstep : stepEvent isTest s SEvent.fire =
          beginPoll isTest s.queue.length { s with active := none } t := by
        simp [stepEvent, hact]
      rw [hstep]
      have hids : idsOf s = s.completed ++ t.id :: s.queue.map WTask.id := by
        simp [idsOf, hact, hth]
      refine ⟨b1, ?_, fun hf => (b3 hf).trans hth.symm, b5, fun i hi => ?_, fun u hu => ?_⟩
      · rw [b2, hids]
        simp [eventTasks]
      · obtain ⟨hit, u, hu1, hu2, hu3⟩ := b4 i hi
        refine Or.inr ⟨hit, u, ?_, hu2, hu3⟩
        rcases hu1 with h | h
        · exact Or.inl (by rw [h])
        · exact Or.inr (Or.inl h)
      · rcases b6 u hu with h | h
        · exact Or.inl (by rw [h])
        · exact Or.inr (Or.inl h)

theorem runEvents_spec (isTest : Bool) :
    ∀ es (s : SState), SInv s →
      SInv (runEvents isTest s es) ∧
      idsOf (runEvents isTest s es) = idsOf s ++ (arrivalTasks es).map WTask.id ∧
      (isTest = false → (runEvents isTest s es).threw = s.threw) ∧
      (∀ d ∈ (runEvents isTest s es).delays, d ∈ s.delays ∨ d = retryDelayMs) ∧
      (∀ i, (runEvents isTest s es).threw = some i → s.threw = some i ∨
        (isTest = true ∧ ∃ u, (s.active = some u ∨ u ∈ s.queue ∨ u ∈ arrivalTasks es) ∧
          u.id = i ∧ maxTries < u.readyAt)) ∧
      (∀ u, ((runEvents isTest s es).active = some u ∨
          u ∈ (runEvents isTest s es).queue) →
        s.active = some u ∨ u ∈ s.queue ∨ u ∈ arrivalTasks es) := by
  intro es
  induction es with
  | nil =>
    intro s hinv
    refine ⟨hinv, by simp [runEvents, arrivalTasks], fun _ => rfl,
      fun d hd => Or.inl hd, fun i hi => Or.inl hi, fun u hu => ?_⟩
    rcases hu with hu | hu
    · exact Or.inl hu
    · exact Or.inr (Or.inl hu)
  | cons e rest ih =>
    intro s hinv
    obtain ⟨e1, e2, e3, e4, e5, e6⟩ := stepEvent_spec isTest s e hinv
    obtain ⟨r1, r2, r3, r4, r5, r6⟩ := ih (stepEvent isTest s e) e1
    have hrun : runEvents isTest s (e :: rest) =
        runEvents isTest (stepEvent isTest s e) rest := rfl
    rw [hrun]
    refine ⟨r1, ?_, fun hf => (r3 hf).trans (e3 hf), fun d hd => ?_,
      fun i hi => ?_, fun u hu => ?_⟩
    · rw [r2, e2, arrivalTasks_cons]
      simp
    · rcases r4 d hd with h | h
      · exact e4 d h
      · exact Or.inr h
    · rcases r5 i hi with h | h
      · rcases e5 i h with h2 | ⟨hit, u, hu1, hu2, hu3⟩
        · exact Or.inl h2
        · refine Or.inr ⟨hit, u, ?_, hu2, hu3⟩
          rcases hu1 with h3 | h3 | h3
          · exact Or.inl h3
          · exact Or.inr (Or.inl h3)
          · exact Or.inr (Or.inr (by rw [arrivalTasks_cons]; exact List.mem_append_left _ h3))
      · obtain ⟨hit, u, hu1, hu2, hu3⟩ := h
        refine Or.inr ⟨hit, u, ?_, hu2, hu3⟩
        rcases hu1 with h3 | h3 | h3
        · rcases e6 u (Or.inl h3) with h4 | h4 | h4
          · exact Or.inl h4
          · exact Or.inr (Or.inl h4)
          · exact Or.inr (Or.inr (by rw [arrivalTasks_cons]; exact List.mem_append_left _ h4))
        · rcases e6 u (Or.inr h3) with h4 | h4 | h4
          · exact Or.inl h4
          · exact Or.inr (Or.inl h4)
          · exact Or.inr (Or.inr (by rw [arrivalTasks_cons]; exact List.mem_append_left _ h4))
        · exact Or.inr (Or.inr (by rw [arrivalTasks_cons]; exact List.mem_append_right _ h3))
    · rcases r6 u hu with h | h | h
      · rcases e6 u (Or.inl h) with h4 | h4 | h4
        · exact Or.inl h4
        · exact Or.inr (Or.inl h4)
        · exact Or.inr (Or.inr (by rw [arrivalTasks_cons]; exact List.mem_append_left _ h4))
      · rcases e6 u (Or.inr h) with h4 | h4 | h4
        · exact Or.inl h4
        · exact Or.inr (Or.inl h4)
        · exact Or.inr (Or.inr (by rw [arrivalTasks_cons]; exact List.mem_append_left _ h4))
      · exact Or.inr (Or.inr (by rw [arrivalTasks_cons]; exact List.mem_append_right _ h))

/-- C3: every browser-settle wait polls with a bounded number of retries
(the `tries` counter never exceeds the fixed bound `maxTries = 10`) at the
fixed short backoff of 9 ms (every scheduled delay equals
`retryDelayMs = 9`); while a wait is actively polling (`tries ≠ 0`), an
arriving request is only appended to the queue; across any event script
the completed waits, the thrown wait, the active wait and the queue
account for exactly the arrivals in arrival order (so completion is
strictly FIFO and at most one wait polls at a time); and exceeding the
retry bound records a throw only in test mode — and only for a wait whose
browser never settles within the bound — while outside test mode no throw
ever occurs. -/
theorem c3_retry_queue (isTest : Bool) (es : List SEvent) :
    maxTries = 10 ∧ retryDelayMs = 9 ∧
    (runEvents isTest initS es).tries ≤ maxTries ∧
    (∀ d ∈ (runEvents isTest initS es).delays, d = retryDelayMs) ∧
    (∀ (s : SState) (t : WTask), s.tries ≠ 0 →
      stepEvent isTest s (SEvent.arrive t) = { s with queue := s.queue ++ [t] }) ∧
    idsOf (runEvents isTest initS es) = (arrivalTasks es).map WTask.id ∧
    (isTest = false → (runEvents isTest initS es).threw = none) ∧
    (∀ i, (runEvents isTest initS es).threw = some i →
      isTest = true ∧ ∃ u ∈ arrivalTasks es, u.id = i ∧ maxTries < u.readyAt) := by
  have hinv0 : SInv initS := ⟨fun _ => ⟨rfl, rfl⟩, by simp [initS],
    by simp [initS], by simp [initS, maxTries]⟩
  obtain ⟨r1, r2, r3, r4, r5, _⟩ := runEvents_spec isTest es initS hinv0
  refine ⟨rfl, rfl, r1.2.2.2, fun d hd => ?_, fun s t h0 => ?_, ?_, r3, fun i hi => ?_⟩
  · rcases r4 d hd with h | h
    · simp [initS] at h
    · exact h
  · simp [stepEvent, h0]
  · rw [r2]
    simp [initS, idsOf]
  · rcases r5 i hi with h | ⟨hit, u, hu1, hu2, hu3⟩
    · simp [initS] at h
    · refine ⟨hit, u, ?_, hu2, hu3⟩
      rcases hu1 with h | h | h
      · simp [initS] at h
      · simp [initS] at h
      · exact h

/-- Witness for C3 at concrete scripts: two waits arriving while the
first is still polling complete in arrival order with 9 ms backoffs and
no throw outside test mode; a busy-state arrival is queued, not polled;
and in test mode a wait that never becomes ready within the bound records
a throw after exhausting exactly the retry bound. -/
theorem c3_retry_queue_witness :
    idsOf (runEvents false initS [SEvent.arrive ⟨1, 3⟩, SEvent.arrive ⟨2, 1⟩,
      SEvent.fire, SEvent.fire, SEvent.fire]) = [1, 2] ∧
    (runEvents false initS [SEvent.arrive ⟨1, 3⟩, SEvent.arrive ⟨2, 1⟩,
      SEvent.fire, SEvent.fire, SEvent.fire]).threw = none ∧
    stepEvent false { tries := 3 } (SEvent.arrive ⟨7, 1⟩) =
      { tries := 3, queue := [⟨7, 1⟩] } ∧
    (runEvents true initS (SEvent.arrive ⟨1, 100⟩ ::
      List.replicate 10 SEvent.fire)).tries ≤ maxTries := by
  have h1 := c3_retry_queue false [SEvent.arrive ⟨1, 3⟩, SEvent.arrive ⟨2, 1⟩,
    SEvent.fire, SEvent.fire, SEvent.fire]
  have h2 := c3_retry_queue true (SEvent.arrive ⟨1, 100⟩ ::
    List.replicate 10 SEvent.fire)
  refine ⟨?_, h1.2.2.2.2.2.2.1 rfl, ?_, h2.2.2.1⟩
  · rw [h1.2.2.2.2.2.1]
    decide
  · have h3 := h1.2.2.2.2.1 { tries := 3 } ⟨7, 1⟩ (by decide)
    simpa using h3

end RFR
